import Mathlib

/-!
# Verification of the HRM reasoning pipeline

Shallow embedding, in Lean 4 over the real numbers, of the decision logic of
the hierarchical-reasoning-machine repository:

* `HRM.Convergence` embeds `src/hrm_advanced_convergence.py`
  (`AdvancedConvergenceAnalyzer`): the four convergence strategies and their
  weighted combination.  Python floats are modelled as real numbers;
  `statistics.mean` and `statistics.stdev` are modelled by `mean` and `stdev`
  below.  Result dictionaries are modelled by structures and an inductive
  outcome type; human-readable `reason` strings that interpolate numbers are
  kept only where a claim depends on them (the fixed fallback reasons).
* `HRM.Engine` embeds `src/hrm_automation_engine.py`: the complexity
  classifier, the pattern catalog, the retrying orchestrator
  (`_execute_pattern_with_retries`) and the top-level `execute` wrapper.
  The MCP tool interface is modelled as an injected `ToolInvoker` function
  (tool name, current context, attempt index ↦ outcome), matching the
  dependency-injection contract of the specification; an outcome is either a
  returned result object or a raised exception.
* `HRM.Core` embeds the pattern catalog of `src/hrm_core.py`
  (`PatternSelector`), whose roles carry the HIGH/LOW hierarchical levels.

Python `lower()` is modelled by `Char.toLower` (ASCII case folding), and the
Python substring test `p in q` by the list-infix relation on characters.
-/

namespace HRM

/-! ## Statistics (`statistics.mean`, `statistics.stdev`)

In Lean, division by zero yields zero, so `mean []` is `0`; every use below is
guarded by a non-emptiness check exactly where the Python source guards
against `StatisticsError`. -/

/-- `statistics.mean`: sum divided by length. -/
noncomputable def mean (l : List ℝ) : ℝ := l.sum / l.length

/-- Sample variance with Bessel's correction, as used by `statistics.stdev`. -/
noncomputable def sampleVariance (l : List ℝ) : ℝ :=
  ((l.map fun x => (x - mean l) ^ 2).sum) / ((l.length : ℝ) - 1)

/-- `statistics.stdev`: square root of the sample variance. -/
noncomputable def stdev (l : List ℝ) : ℝ := Real.sqrt (sampleVariance l)

theorem mean_nonneg {l : List ℝ} (h : ∀ x ∈ l, 0 ≤ x) : 0 ≤ mean l := by
  have hsum : 0 ≤ l.sum := List.sum_nonneg h
  exact div_nonneg hsum (Nat.cast_nonneg _)

theorem mean_le_one {l : List ℝ} (h : ∀ x ∈ l, x ≤ 1) : mean l ≤ 1 := by
  rcases l with _ | ⟨a, l₀⟩
  · simp [mean]
  · have hlen : (0 : ℝ) < ((a :: l₀).length : ℝ) := by
      simp only [List.length_cons, Nat.cast_add, Nat.cast_one]
      positivity
    have hsum : (a :: l₀).sum ≤ (((a :: l₀).length : ℕ) : ℝ) := by
      have := List.sum_le_card_nsmul (a :: l₀) 1 h
      simpa using this
    rw [mean, div_le_one hlen]
    exact hsum

theorem stdev_nonneg (l : List ℝ) : 0 ≤ stdev l := Real.sqrt_nonneg _

/-! ## The advanced convergence analyzer (`hrm_advanced_convergence.py`) -/

namespace Convergence

/-- `ConvergenceStrategy` enum. -/
inductive Strategy
  | confidenceThreshold
  | diminishingReturns
  | consensusValidation
  | adaptiveLearning
deriving DecidableEq

/-- One strategy's result dictionary: `converged` flag, `strategy` tag and
`score` (the `metrics` and `reason` entries are presentation data that no
downstream decision reads). -/
structure StrategyResult where
  converged : Bool
  strategy : Strategy
  score : ℝ

/-- An MCP result object as consumed by `analyze_convergence`.  The Python
code duck-types its inputs with `hasattr`, so `toolName` and `confidence` are
optional (`none` models a result object lacking the attribute); the `success`
attribute is present on every result class in the repository. -/
structure MCPRecord where
  toolName : Option String
  success : Bool
  confidence : Option ℝ

/-- An entry of `self.pattern_performance`. -/
structure PatternPerf where
  executions : ℕ
  avgConfidence : ℝ
  confidenceHistory : List ℝ

/-- The value returned by `analyze_convergence`: either the fixed dictionary
built by `_create_convergence_result` (non-converged fallback, `confidence`
0.0, fixed recommendation) or the full combined verdict built by
`_combine_convergence_strategies`. -/
inductive ConvergenceOutcome
  | fallback (converged : Bool) (confidence : ℝ) (reason : String) (strategy : Strategy)
  | verdict (converged : Bool) (combinedScore : ℝ) (convergenceVotes : ℝ)
      (primary : Strategy) (details : List StrategyResult)

/-- The combined/“confidence” score carried by an outcome: the `combined_score`
of a verdict, the fixed `confidence` field (0.0) of a fallback. -/
def combinedOf : ConvergenceOutcome → ℝ
  | .fallback _ confidence _ _ => confidence
  | .verdict _ combinedScore _ _ _ => combinedScore

/-- The `complexity_thresholds` table of `_analyze_confidence_threshold`,
with `.get(complexity, self.base_threshold)` fallback. -/
def complexityThreshold (base : ℝ) (complexity : String) : ℝ :=
  if complexity = "simple" then 0.65
  else if complexity = "medium" then 0.75
  else if complexity = "complex" then 0.80
  else if complexity = "expert" then 0.85
  else base

open scoped Classical in
/-- Strategy 1, `_analyze_confidence_threshold`. -/
noncomputable def analyzeConfidenceThreshold (base : ℝ) (confidences : List ℝ)
    (successRate : ℝ) (complexity : String) : StrategyResult :=
  let threshold := complexityThreshold base complexity
  let avgConfidence := mean confidences
  let confidenceStd := if 1 < confidences.length then stdev confidences else 0
  let confidenceStability :=
    if 0 < avgConfidence then 1 - min (confidenceStd / avgConfidence) 1 else 0
  { converged :=
      decide (threshold ≤ avgConfidence ∧ 0.8 ≤ successRate ∧ 0.7 ≤ confidenceStability),
    strategy := .confidenceThreshold,
    score := avgConfidence * successRate * confidenceStability }

/-- The per-step information gains of `_analyze_diminishing_returns`:
`max(0, confidences[i] - confidences[i-1])` for consecutive entries. -/
def gains (confidences : List ℝ) : List ℝ :=
  (confidences.zip confidences.tail).map fun p => max 0 (p.2 - p.1)

open scoped Classical in
/-- Strategy 2, `_analyze_diminishing_returns`.  (The source also receives the
raw result list but never reads it.) -/
noncomputable def analyzeDiminishingReturns (confidences : List ℝ) : StrategyResult :=
  if confidences.length < 3 then
    ⟨false, .diminishingReturns, 0⟩
  else
    let gs := gains confidences
    if 2 ≤ gs.length then
      let recentTrend := gs.drop (gs.length - 2)
      let diminishing := decide (∀ g ∈ recentTrend, g ≤ 0.05)
      let avgGain := mean gs
      let converged := diminishing && decide (avgGain < 0.1)
      ⟨converged, .diminishingReturns, if converged then 1 - avgGain else avgGain⟩
    else
      ⟨false, .diminishingReturns, 0.5⟩

/-- The grouping key for the result at index `i` in `_analyze_consensus_validation`:
the record's own `tool_name` when present, else `pattern[i]` when in range,
else `"unknown"`. -/
def toolKeyAt (pattern : List String) (i : ℕ) (r : MCPRecord) : String :=
  match r.toolName with
  | some t => t
  | none => pattern.getD i "unknown"

/-- Key accumulation in Python-dict insertion order. -/
def insertKey (acc : List String) (k : String) : List String :=
  if k ∈ acc then acc else acc ++ [k]

/-- The distinct grouping keys of `tool_results`, in first-occurrence order. -/
def orderedToolKeys (pattern : List String) (rs : List MCPRecord) : List String :=
  (rs.enum.map fun p => toolKeyAt pattern p.1 p.2).foldl insertKey []

/-- The confidences of the successful results grouped under key `k`. -/
def groupConfidences (pattern : List String) (rs : List MCPRecord) (k : String) : List ℝ :=
  ((rs.enum.filter fun p => toolKeyAt pattern p.1 p.2 = k).map Prod.snd).filterMap
    fun r => if r.success then r.confidence else none

/-- The `consensus_scores` list: one mean confidence per tool group that has
at least one successful confidence-bearing result. -/
noncomputable def consensusScores (pattern : List String) (rs : List MCPRecord) : List ℝ :=
  (orderedToolKeys pattern rs).filterMap fun k =>
    let cs := groupConfidences pattern rs k
    if cs.isEmpty then none else some (mean cs)

open scoped Classical in
/-- Strategy 3, `_analyze_consensus_validation`. -/
noncomputable def analyzeConsensusValidation (rs : List MCPRecord)
    (pattern : Option (List String)) : StrategyResult :=
  match pattern with
  | none => ⟨false, .consensusValidation, 0⟩
  | some p =>
    if p = [] ∨ rs.length < 2 then
      ⟨false, .consensusValidation, 0⟩
    else
      let scores := consensusScores p rs
      if scores.isEmpty then
        ⟨false, .consensusValidation, 0⟩
      else
        let overallConsensus := mean scores
        let consensusStability :=
          if 1 < scores.length ∧ 0 < overallConsensus then
            1 - stdev scores / overallConsensus
          else 1
        ⟨decide (0.75 ≤ overallConsensus ∧ 0.8 ≤ consensusStability),
          .consensusValidation, overallConsensus * consensusStability⟩

/-- `pattern_key = f"{complexity}:{'-'.join(pattern)}"`. -/
def patternKey (complexity : String) (pattern : List String) : String :=
  complexity ++ ":" ++ String.intercalate "-" pattern

open scoped Classical in
/-- Strategy 4, `_analyze_adaptive_learning`.  The store is the
`pattern_performance` mapping; a missing key is initialised to the zero entry
(whose `executions = 0` routes to the cold-start branch, exactly as in the
source). -/
noncomputable def analyzeAdaptiveLearning (base : ℝ) (store : String → Option PatternPerf)
    (confidences : List ℝ) (pattern : Option (List String)) (complexity : String) :
    StrategyResult :=
  match pattern with
  | none => ⟨false, .adaptiveLearning, 0⟩
  | some p =>
    if p = [] then
      ⟨false, .adaptiveLearning, 0⟩
    else
      let historicalData := (store (patternKey complexity p)).getD ⟨0, 0, []⟩
      let currentConfidence := mean confidences
      if 0 < historicalData.executions then
        let adaptiveThreshold := min 0.9 (historicalData.avgConfidence + 0.1)
        ⟨decide (adaptiveThreshold ≤ currentConfidence), .adaptiveLearning,
          currentConfidence / adaptiveThreshold⟩
      else
        ⟨decide (base ≤ currentConfidence), .adaptiveLearning, currentConfidence⟩

/-- The `weights` table of `_combine_convergence_strategies`.  (The source's
`.get(strategy_type, 0.1)` default is dead: every enum member is a key.) -/
def strategyWeight : Strategy → ℝ
  | .confidenceThreshold => 0.4
  | .diminishingReturns => 0.2
  | .consensusValidation => 0.25
  | .adaptiveLearning => 0.15

open scoped Classical in
/-- Python's `max(valid_strategies, key=lambda x: x.get('score', 0))`: scan the
list keeping the current best on ties, so the first maximal element wins. -/
noncomputable def pickPrimary (h : StrategyResult) (t : List StrategyResult) : StrategyResult :=
  t.foldl (fun best s => if best.score < s.score then s else best) h

open scoped Classical in
/-- `_combine_convergence_strategies`. -/
noncomputable def combineConvergenceStrategies (c d n a : StrategyResult) :
    ConvergenceOutcome :=
  let validStrategies := [c, d, n, a].filter fun s => decide (0 < s.score)
  match validStrategies with
  | [] => .fallback false 0 "No valid convergence strategies" .confidenceThreshold
  | v :: vs =>
    let combinedScore := ((v :: vs).map fun s => s.score * strategyWeight s.strategy).sum
    let convergenceVotes :=
      (((v :: vs).filter fun s => s.converged).map fun s => strategyWeight s.strategy).sum
    .verdict (decide (0.5 ≤ convergenceVotes)) combinedScore convergenceVotes
      (pickPrimary v vs).strategy (v :: vs)

/-- `analyze_convergence` (its return value; the trailing history update does
not affect the returned dictionary). -/
noncomputable def analyzeConvergence (base : ℝ) (store : String → Option PatternPerf)
    (mcpResults : List MCPRecord) (complexity : String) (pattern : Option (List String)) :
    ConvergenceOutcome :=
  if mcpResults.isEmpty then
    .fallback false 0 "No results to analyze" .confidenceThreshold
  else
    let confidences := mcpResults.filterMap fun r => if r.success then r.confidence else none
    let successRate := ((mcpResults.filter fun r => r.success).length : ℝ) / mcpResults.length
    if confidences.isEmpty then
      .fallback false 0 "No successful results with confidence" .confidenceThreshold
    else
      combineConvergenceStrategies
        (analyzeConfidenceThreshold base confidences successRate complexity)
        (analyzeDiminishingReturns confidences)
        (analyzeConsensusValidation mcpResults pattern)
        (analyzeAdaptiveLearning base store confidences pattern complexity)

/-- The specification's stability formula for the confidence-threshold
strategy, stated in the specification's own words: `1 − min(stdev/mean, 1)`,
and `1` when there is only one sample. -/
noncomputable def specStability (l : List ℝ) : ℝ :=
  if l.length = 1 then 1 else 1 - min (stdev l / mean l) 1

/-- The `convergence_votes` entry of a verdict (`none` for a fallback, which
computes no vote). -/
def votesOf : ConvergenceOutcome → Option ℝ
  | .fallback _ _ _ _ => none
  | .verdict _ _ votes _ _ => some votes

/-- The `combined_score` entry of a verdict (`none` for a fallback). -/
def combinedScoreOf : ConvergenceOutcome → Option ℝ
  | .fallback _ _ _ _ => none
  | .verdict _ combinedScore _ _ _ => some combinedScore

/-- The `converged` entry of an outcome. -/
def convergedOf : ConvergenceOutcome → Bool
  | .fallback converged _ _ _ => converged
  | .verdict converged _ _ _ _ => converged

/-- The `primary_strategy` entry of a verdict (`none` for a fallback). -/
def primaryOf : ConvergenceOutcome → Option Strategy
  | .fallback _ _ _ _ => none
  | .verdict _ _ _ primary _ => some primary

/-- The participating strategies of a verdict (`none` for a fallback). -/
def detailsOf : ConvergenceOutcome → Option (List StrategyResult)
  | .fallback _ _ _ _ => none
  | .verdict _ _ _ _ details => some details

end Convergence

/-! ## The automation engine (`hrm_automation_engine.py`) -/

namespace Engine

/-- `ComplexityAnalyzer.complexity_patterns['expert']`. -/
def expertKeywords : List String :=
  ["consciousness", "emergent", "recursive", "bootstrap", "agi",
   "superintelligence", "singularity", "self-modification"]

/-- `ComplexityAnalyzer.complexity_patterns['complex']`. -/
def complexKeywords : List String :=
  ["design system", "architecture", "framework", "multi-step",
   "systematic approach", "hierarchical", "feedback loop"]

/-- `ComplexityAnalyzer.complexity_patterns['medium']`. -/
def mediumKeywords : List String :=
  ["compare", "contrast", "analyze", "evaluate", "relationship",
   "trade-offs", "pros and cons", "differences"]

/-- `ComplexityAnalyzer.complexity_patterns['simple']`. -/
def simpleKeywords : List String :=
  ["what is", "define", "explain", "basic", "fundamental",
   "how to", "list of", "tell me about"]

/-- `query.lower()` as a character list (ASCII case folding). -/
def lowerChars (s : String) : List Char := s.toList.map Char.toLower

/-- The Python substring test `p in q` on the lowered query. -/
def containsSub (p : String) (q : List Char) : Bool := decide (p.toList <:+: q)

/-- `any(pattern in query_lower for pattern in patterns)`. -/
def anyKeyword (ks : List String) (q : List Char) : Bool :=
  ks.any fun p => containsSub p q

/-- `ComplexityAnalyzer.assess`: first matching tier in the fixed priority
order expert, complex, medium, simple; fallback `'medium'`. -/
def assess (query : String) : String :=
  let queryLower := lowerChars query
  if anyKeyword expertKeywords queryLower then "expert"
  else if anyKeyword complexKeywords queryLower then "complex"
  else if anyKeyword mediumKeywords queryLower then "medium"
  else if anyKeyword simpleKeywords queryLower then "simple"
  else "medium"

/-- The tier/keyword table in priority order, used to state the
specification's description of `classify` ("returns the first tier whose
pattern set matches"). -/
def tierTable : List (String × List String) :=
  [("expert", expertKeywords), ("complex", complexKeywords),
   ("medium", mediumKeywords), ("simple", simpleKeywords)]

/-- The specification's classifier, stated in its own words: the first tier
(in priority order) whose keyword set matches the case-insensitive query,
else `'medium'`. -/
def specClassify (query : String) : String :=
  ((tierTable.find? fun t => anyKeyword t.2 (lowerChars query)).map Prod.fst).getD "medium"

/-- `PatternOrchestrator.execution_patterns` with the `.get(complexity,
patterns['medium'])` fallback (the final branch repeats the medium entry). -/
def enginePattern (complexity : String) : List String :=
  if complexity = "simple" then ["brain_recall"]
  else if complexity = "medium" then ["brain_recall", "web_search", "brain_remember"]
  else if complexity = "complex" then
    ["brain_recall", "sequential_thinking", "web_search", "reasoning_tools", "brain_remember"]
  else if complexity = "expert" then
    ["brain_recall", "sequential_thinking", "web_search", "reasoning_tools",
     "brain_remember", "brain_recall"]
  else ["brain_recall", "web_search", "brain_remember"]

/-- `ExecutionPhase` enum. -/
inductive ExecutionPhase
  | analysis | orchestration | convergence | synthesis
deriving DecidableEq

/-- The `data` payload of a tool result, as far as the engine inspects it:
the optional `final_answer` and `search_confidence` entries drive the context
update, and `reprStr` stands for Python's `str(result.data)`. -/
structure ToolData where
  finalAnswer : Option String
  searchConfidence : Option ℝ
  reprStr : String

/-- `MCPExecutionResult`. -/
structure MCPExecutionResult where
  toolName : String
  success : Bool
  data : Option ToolData
  confidence : ℝ
  executionTime : ℝ
  phase : ExecutionPhase
  errorMessage : Option String
  retryCount : ℕ

/-- One attempt at a tool call either returns a result object or raises an
exception with a message. -/
inductive ToolOutcome
  | ok (r : MCPExecutionResult)
  | exn (msg : String)

/-- The injected tool interface (specification §4.3 `ToolInvoker`): the
engine's `MCPToolInterface` dispatch, abstracted over tool name, current
context string, and attempt index. -/
abbrev ToolInvoker := String → String → ℕ → ToolOutcome

/-- The context-chaining update performed after a successful step. -/
def updateContext (context : String) (r : MCPExecutionResult) : String :=
  match r.data with
  | none => context
  | some d =>
    match d.finalAnswer with
    | some ans => context ++ " | " ++ ans.take 100
    | none =>
      match d.searchConfidence with
      | some _ => context ++ " | Search: " ++ d.reprStr.take 100
      | none => context

/-- The `MCPExecutionResult` built in `_execute_pattern_with_retries` when the
final attempt raised an exception. -/
def errorRecord (toolName msg : String) (attempt : ℕ) : MCPExecutionResult :=
  { toolName := toolName, success := false, data := none, confidence := 0,
    executionTime := 0, phase := .orchestration, errorMessage := some msg,
    retryCount := attempt }

/-- The inner retry loop of `_execute_pattern_with_retries` for one tool role,
starting at `attempt`: a returned result gets `retry_count := attempt` and is
kept if successful or if this was the last attempt; an exception yields the
fixed error record on the last attempt; otherwise the loop retries.  `none`
is only reachable when `maxRetries = 0` (the `range` is empty and nothing is
appended). -/
def roleRun (toolName : String) (invoke : ℕ → ToolOutcome) (maxRetries attempt : ℕ) :
    Option MCPExecutionResult :=
  if h : attempt < maxRetries then
    match invoke attempt with
    | .ok r =>
      let r₁ := { r with retryCount := attempt }
      if r₁.success then some r₁
      else if attempt = maxRetries - 1 then some r₁
      else roleRun toolName invoke maxRetries (attempt + 1)
    | .exn msg =>
      if attempt = maxRetries - 1 then some (errorRecord toolName msg attempt)
      else roleRun toolName invoke maxRetries (attempt + 1)
  else none
termination_by maxRetries - attempt
decreasing_by all_goals omega

/-- `_execute_pattern_with_retries`: walk the pattern in order, run the retry
loop per role, collect the appended records, and thread the context through
successful steps. -/
def executePatternWithRetries (invoke : ToolInvoker) (maxRetries : ℕ) :
    List String → String → List MCPExecutionResult
  | [], _ => []
  | toolName :: rest, context =>
    match roleRun toolName (invoke toolName context) maxRetries 0 with
    | some r =>
      r :: executePatternWithRetries invoke maxRetries rest
        (if r.success then updateContext context r else context)
    | none => executePatternWithRetries invoke maxRetries rest context

/-- `ConvergenceAnalyzer.analyze`'s result dictionary: the no-results shape,
the full statistics shape, or the `{'converged': False, 'error': …}` shape
produced only by `execute`'s exception handler.  (The interpolated numeric
reason text is reduced to its branch.) -/
inductive ConvData
  | noResults
  | stats (converged : Bool) (successRate : ℝ) (averageConfidence : ℝ)
      (totalExecutionTime : ℝ) (successfulTools failedTools : ℕ) (reason : String)
  | errorData (msg : String)

open scoped Classical in
/-- `ConvergenceAnalyzer.analyze`. -/
noncomputable def analyze (threshold : ℝ) (rs : List MCPExecutionResult) : ConvData :=
  if rs.isEmpty then .noResults
  else
    let successfulResults := rs.filter fun r => r.success
    let successRate := (successfulResults.length : ℝ) / rs.length
    let avgConfidence :=
      (successfulResults.map fun r => r.confidence).sum / ((max successfulResults.length 1 : ℕ) : ℝ)
    let totalTime := (rs.map fun r => r.executionTime).sum
    let converged := decide (0.8 ≤ successRate ∧ threshold ≤ avgConfidence)
    .stats converged successRate avgConfidence totalTime successfulResults.length
      (rs.length - successfulResults.length)
      (if 0.8 ≤ successRate ∧ threshold ≤ avgConfidence then "Convergence achieved"
       else "Low confidence")

/-- `HRMExecutionResult` (the `insights`/`next_actions` strings of the
`InsightGenerator` are presentation-only output and are elided). -/
structure HRMExecutionResult where
  query : String
  complexity : String
  pattern : List String
  mcpResults : List MCPExecutionResult
  convergenceData : ConvData
  success : Bool

/-- The body of `AutomatedExecutionEngine.execute`'s `try` block: the four
phases in order. -/
noncomputable def executeRun (invoke : ToolInvoker) (maxRetries : ℕ) (threshold : ℝ)
    (query : String) : HRMExecutionResult :=
  let complexity := assess query
  let pattern := enginePattern complexity
  let results := executePatternWithRetries invoke maxRetries pattern query
  { query := query, complexity := complexity, pattern := pattern,
    mcpResults := results, convergenceData := analyze threshold results,
    success := results.all fun r => r.success }

/-- `AutomatedExecutionEngine.execute` with its catch-all exception handler:
whether some structural fault interrupts the `try` block is environmental, so
it is passed in as `structuralFault`; when it fires, the handler returns the
fixed error-shaped result instead of raising. -/
noncomputable def executeTop (invoke : ToolInvoker) (maxRetries : ℕ) (threshold : ℝ)
    (structuralFault : Option String) (query : String) : HRMExecutionResult :=
  match structuralFault with
  | some msg =>
    { query := query, complexity := "unknown", pattern := [], mcpResults := [],
      convergenceData := .errorData ("HRM execution failed: " ++ msg), success := false }
  | none => executeRun invoke maxRetries threshold query

end Engine

/-! ## The core pattern catalog (`hrm_core.py`, `PatternSelector`) -/

namespace Core

/-- One step of a core execution pattern: tool, hierarchical level, purpose. -/
structure ToolRole where
  tool : String
  level : String
  purpose : String
deriving DecidableEq

/-- `PatternSelector.execution_patterns['simple']`. -/
def simplePattern : List ToolRole :=
  [⟨"brain_recall", "HIGH", "Retrieve existing knowledge"⟩]

/-- `PatternSelector.execution_patterns['medium']`. -/
def mediumPattern : List ToolRole :=
  [⟨"brain_recall", "HIGH", "Load context"⟩,
   ⟨"web_search", "LOW", "Gather information"⟩,
   ⟨"brain_remember", "HIGH", "Store synthesis"⟩]

/-- `PatternSelector.execution_patterns['complex']`. -/
def complexPattern : List ToolRole :=
  [⟨"brain_recall", "HIGH", "Deep context loading"⟩,
   ⟨"sequential_thinking", "LOW", "Problem decomposition"⟩,
   ⟨"web_search", "HIGH", "Research validation"⟩,
   ⟨"reasoning_tools", "LOW", "Multi-perspective analysis"⟩,
   ⟨"brain_remember", "HIGH", "Comprehensive storage"⟩]

/-- `PatternSelector.execution_patterns['expert']`. -/
def expertPattern : List ToolRole :=
  [⟨"brain_recall", "HIGH", "Context + breakthroughs"⟩,
   ⟨"sequential_thinking", "LOW", "Initial analysis"⟩,
   ⟨"web_search", "HIGH", "Current state research"⟩,
   ⟨"reasoning_tools", "LOW", "Deep reasoning"⟩,
   ⟨"sequential_thinking", "LOW", "Synthesis validation"⟩,
   ⟨"brain_remember", "HIGH", "Breakthrough storage"⟩]

/-- `PatternSelector.get_pattern` with the `.get(complexity,
patterns['medium'])` fallback. -/
def getPattern (complexity : String) : List ToolRole :=
  if complexity = "simple" then simplePattern
  else if complexity = "medium" then mediumPattern
  else if complexity = "complex" then complexPattern
  else if complexity = "expert" then expertPattern
  else mediumPattern

end Core

/-! ## Claims -/

/-- C10: for every non-empty record list in which no record is both successful
and carries a confidence value, `analyze_convergence` returns — totally, and
without reaching the strategy/vote pipeline — the fixed non-converged fallback
with confidence 0.0 and reason `"No successful results with confidence"`. -/
theorem claim_C10 (base : ℝ) (store : String → Option Convergence.PatternPerf)
    (rs : List Convergence.MCPRecord) (complexity : String)
    (pattern : Option (List String)) (hne : rs ≠ [])
    (hnoconf : ∀ r ∈ rs, r.success = true → r.confidence = none) :
    Convergence.analyzeConvergence base store rs complexity pattern =
      Convergence.ConvergenceOutcome.fallback false 0
        "No successful results with confidence" .confidenceThreshold := by
  have h1 : rs.isEmpty = false := by
    cases rs with
    | nil => exact absurd rfl hne
    | cons a t => rfl
  have h2 : (rs.filterMap fun r => if r.success then r.confidence else none) = [] := by
    rw [List.filterMap_eq_nil_iff]
    intro r hr
    by_cases hs : r.success
    · simp [hs, hnoconf r hr hs]
    · simp [hs]
  rw [Convergence.analyzeConvergence, h1]
  simp only [Bool.false_eq_true, if_false, h2, List.isEmpty_nil, if_true]

/-- Witness for C10: a single successful record without a confidence
attribute. -/
theorem claim_C10_witness :
    Convergence.analyzeConvergence 0.75 (fun _ => none)
        [⟨some "brain_recall", true, none⟩] "medium" none =
      Convergence.ConvergenceOutcome.fallback false 0
        "No successful results with confidence" .confidenceThreshold :=
  claim_C10 0.75 (fun _ => none) [⟨some "brain_recall", true, none⟩] "medium" none
    (by simp)
    (by
      intro r hr _
      rw [List.mem_singleton] at hr
      rw [hr])

/-- C9 counterexample: the Expert pattern's hierarchical levels are
HIGH, LOW, HIGH, LOW, LOW, HIGH — steps 5 and 6 are both LOW, so the levels
do not strictly alternate, refuting the claim's "roles alternating High/Low
hierarchical levels" for the Expert tier. -/
theorem claim_C9_counterexample :
    ((Core.getPattern "expert").map fun r => r.level) =
        ["HIGH", "LOW", "HIGH", "LOW", "LOW", "HIGH"] ∧
    ¬ List.Chain' (fun x y => x ≠ y) ((Core.getPattern "expert").map fun r => r.level) := by
  constructor
  · rfl
  · rw [show ((Core.getPattern "expert").map fun r => r.level) =
        ["HIGH", "LOW", "HIGH", "LOW", "LOW", "HIGH"] from rfl]
    simp [List.chain'_cons]

/-- C9 (amended): `get_pattern` is a pure lookup with tier sizes
Simple 1, Medium 3, Complex 5, Expert 6 (in both catalogs); the Simple,
Medium and Complex level schedules strictly alternate HIGH/LOW, while the
Expert schedule is the fixed list HIGH, LOW, HIGH, LOW, LOW, HIGH (not
strictly alternating); and every unknown tier falls back to Medium's
pattern.  (Purity and idempotence hold by construction: the lookup is a
function of the tier alone.) -/
theorem claim_C9_amended :
    (Core.getPattern "simple").length = 1 ∧
    (Core.getPattern "medium").length = 3 ∧
    (Core.getPattern "complex").length = 5 ∧
    (Core.getPattern "expert").length = 6 ∧
    (Engine.enginePattern "simple").length = 1 ∧
    (Engine.enginePattern "medium").length = 3 ∧
    (Engine.enginePattern "complex").length = 5 ∧
    (Engine.enginePattern "expert").length = 6 ∧
    List.Chain' (fun x y => x ≠ y) ((Core.getPattern "simple").map fun r => r.level) ∧
    List.Chain' (fun x y => x ≠ y) ((Core.getPattern "medium").map fun r => r.level) ∧
    List.Chain' (fun x y => x ≠ y) ((Core.getPattern "complex").map fun r => r.level) ∧
    ((Core.getPattern "expert").map fun r => r.level) =
      ["HIGH", "LOW", "HIGH", "LOW", "LOW", "HIGH"] ∧
    (∀ c, c ≠ "simple" → c ≠ "medium" → c ≠ "complex" → c ≠ "expert" →
      Core.getPattern c = Core.mediumPattern ∧
      Engine.enginePattern c = Engine.enginePattern "medium") := by
  refine ⟨rfl, rfl, rfl, rfl, rfl, rfl, rfl, rfl, ?_, ?_, ?_, rfl, ?_⟩
  · rw [show ((Core.getPattern "simple").map fun r => r.level) = ["HIGH"] from rfl]
    simp
  · rw [show ((Core.getPattern "medium").map fun r => r.level) =
        ["HIGH", "LOW", "HIGH"] from rfl]
    simp [List.chain'_cons]
  · rw [show ((Core.getPattern "complex").map fun r => r.level) =
        ["HIGH", "LOW", "HIGH", "LOW", "HIGH"] from rfl]
    simp [List.chain'_cons]
  intro c h1 h2 h3 h4
  constructor
  · rw [Core.getPattern, if_neg h1, if_neg h2, if_neg h3, if_neg h4]
  · rw [Engine.enginePattern, if_neg h1, if_neg h2, if_neg h3, if_neg h4]
    rfl

/-- C8: the classifier is a pure function that checks the tier keyword sets
in the fixed priority order expert, complex, medium, simple, returns the
first tier whose set matches the case-insensitive query (`specClassify`
states exactly that search), returns `'medium'` when nothing matches, and in
particular classifies every query containing an Expert keyword as
`'expert'`.  Totality ("never raises") holds by construction. -/
theorem claim_C8 (query : String) :
    Engine.assess query = Engine.specClassify query ∧
    ((∃ p ∈ Engine.expertKeywords, p.toList <:+: Engine.lowerChars query) →
      Engine.assess query = "expert") ∧
    ((∀ t ∈ Engine.tierTable, Engine.anyKeyword t.2 (Engine.lowerChars query) = false) →
      Engine.assess query = "medium") := by
  have hiff : ∀ ks : List String, Engine.anyKeyword ks (Engine.lowerChars query) = true ↔
      ∃ p ∈ ks, p.toList <:+: Engine.lowerChars query := by
    intro ks
    simp [Engine.anyKeyword, Engine.containsSub, List.any_eq_true]
  refine ⟨?_, ?_, ?_⟩
  · cases he : Engine.anyKeyword Engine.expertKeywords (Engine.lowerChars query) <;>
      cases hc : Engine.anyKeyword Engine.complexKeywords (Engine.lowerChars query) <;>
        cases hm : Engine.anyKeyword Engine.mediumKeywords (Engine.lowerChars query) <;>
          cases hs : Engine.anyKeyword Engine.simpleKeywords (Engine.lowerChars query) <;>
            simp [Engine.assess, Engine.specClassify, Engine.tierTable, List.find?,
              he, hc, hm, hs]
  · intro hex
    have he : Engine.anyKeyword Engine.expertKeywords (Engine.lowerChars query) = true :=
      (hiff Engine.expertKeywords).2 hex
    simp [Engine.assess, he]
  · intro hnone
    have he := hnone ("expert", Engine.expertKeywords) (by simp [Engine.tierTable])
    have hc := hnone ("complex", Engine.complexKeywords) (by simp [Engine.tierTable])
    have hm := hnone ("medium", Engine.mediumKeywords) (by simp [Engine.tierTable])
    have hs := hnone ("simple", Engine.simpleKeywords) (by simp [Engine.tierTable])
    simp only [] at he hc hm hs
    simp [Engine.assess, he, hc, hm, hs]

/-- Witness for C8: the query `"Bootstrap AGI now"` contains the Expert
keyword `"agi"` after lowering, so it classifies as `'expert'`. -/
theorem claim_C8_witness : Engine.assess "Bootstrap AGI now" = "expert" :=
  (claim_C8 "Bootstrap AGI now").2.1
    (by
      refine ⟨"agi", by simp [Engine.expertKeywords], ?_⟩
      decide)

/-- The head recurrence of the gains series. -/
theorem gains_cons (a b : ℝ) (t : List ℝ) :
    Convergence.gains (a :: b :: t) = max 0 (b - a) :: Convergence.gains (b :: t) := rfl

/-- The gains series has one entry per consecutive pair. -/
theorem gains_length (l : List ℝ) : (Convergence.gains l).length = l.length - 1 := by
  rw [Convergence.gains, List.length_map, List.length_zip, List.length_tail]
  omega

open scoped Classical in
/-- C5: the diminishing-returns strategy computes per-step gains
`max(0, c[i] − c[i−1])`; with fewer than 3 samples it abstains with score 0
and `converged = false`; with at least 3 samples it converges exactly when
both of the two most recent gains are ≤ 0.05 and the average gain is < 0.1,
scoring `1 − average gain` when converged and the average gain otherwise; and
it reports convergence on `[0.70, 0.75, 0.77, 0.78, 0.78]`. -/
theorem claim_C5 (confidences : List ℝ) :
    (∀ a b t, Convergence.gains (a :: b :: t) =
      max 0 (b - a) :: Convergence.gains (b :: t)) ∧
    (confidences.length < 3 →
      Convergence.analyzeDiminishingReturns confidences =
        ⟨false, .diminishingReturns, 0⟩) ∧
    (3 ≤ confidences.length →
      ((Convergence.analyzeDiminishingReturns confidences).converged = true ↔
        ((∀ g ∈ (Convergence.gains confidences).drop
            ((Convergence.gains confidences).length - 2), g ≤ 0.05) ∧
          mean (Convergence.gains confidences) < 0.1)) ∧
      (Convergence.analyzeDiminishingReturns confidences).score =
        (if ((∀ g ∈ (Convergence.gains confidences).drop
              ((Convergence.gains confidences).length - 2), g ≤ 0.05) ∧
            mean (Convergence.gains confidences) < 0.1) then
          1 - mean (Convergence.gains confidences)
        else mean (Convergence.gains confidences))) ∧
    (Convergence.analyzeDiminishingReturns [0.70, 0.75, 0.77, 0.78, 0.78]).converged
      = true := by
  have hgains : Convergence.gains [(0.70 : ℝ), 0.75, 0.77, 0.78, 0.78]
      = [0.05, 0.02, 0.01, 0] := by
    rw [show Convergence.gains [(0.70 : ℝ), 0.75, 0.77, 0.78, 0.78] =
      [max 0 (0.75 - 0.70), max 0 (0.77 - 0.75), max 0 (0.78 - 0.77),
        max 0 (0.78 - 0.78)] from rfl]
    norm_num [max_def]
  refine ⟨fun a b t => rfl, ?_, ?_, ?_⟩
  · intro hlt
    rw [Convergence.analyzeDiminishingReturns, if_pos hlt]
  · intro h3
    have hnlt : ¬ confidences.length < 3 := by omega
    have h2 : 2 ≤ (Convergence.gains confidences).length := by
      rw [gains_length]; omega
    rw [Convergence.analyzeDiminishingReturns, if_neg hnlt]
    simp only [if_pos h2]
    constructor
    · simp [Bool.and_eq_true, decide_eq_true_eq]
    · by_cases hcond : (∀ g ∈ (Convergence.gains confidences).drop
          ((Convergence.gains confidences).length - 2), g ≤ 0.05) ∧
          mean (Convergence.gains confidences) < 0.1
      · rw [if_pos hcond]
        split
        · rfl
        · rename_i hfalse
          simp only [Bool.and_eq_true, decide_eq_true_eq] at hfalse
          exact absurd hcond hfalse
      · rw [if_neg hcond]
        split
        · rename_i htrue
          simp only [Bool.and_eq_true, decide_eq_true_eq] at htrue
          exact absurd htrue hcond
        · rfl
  · rw [Convergence.analyzeDiminishingReturns]
    rw [if_neg (by norm_num)]
    rw [if_pos (by rw [hgains]; norm_num)]
    simp only [hgains]
    rw [show ([(0.05 : ℝ), 0.02, 0.01, 0].length - 2) = 2 from by norm_num]
    simp only [List.drop, Bool.and_eq_true, decide_eq_true_eq]
    constructor
    · intro g hg
      rcases List.mem_cons.1 hg with rfl | hg
      · norm_num
      · rcases List.mem_cons.1 hg with rfl | hg
        · norm_num
        · simp at hg
    · rw [mean]
      norm_num

/-- Witness for C5 (abstention at two samples, via the first hypothesis
branch). -/
theorem claim_C5_witness :
    Convergence.analyzeDiminishingReturns [(0.9 : ℝ), 0.8] =
      ⟨false, .diminishingReturns, 0⟩ :=
  (claim_C5 [(0.9 : ℝ), 0.8]).2.1 (by norm_num)

/-- C6: with a non-empty pattern, the adaptive-learning strategy is total; on
the first ever execution of the pattern key (no recorded executions) it
converges exactly when the current mean confidence reaches the engine's base
threshold (and scores the current mean); on every later execution it uses the
adaptive threshold `min(0.9, historical average + 0.1)`, converges exactly
when the current mean reaches it, and scores `current mean / adaptive
threshold`. -/
theorem claim_C6 (base : ℝ) (store : String → Option Convergence.PatternPerf)
    (confidences : List ℝ) (p : List String) (complexity : String) (hp : p ≠ []) :
    ((((store (Convergence.patternKey complexity p)).getD ⟨0, 0, []⟩).executions = 0 →
      ((Convergence.analyzeAdaptiveLearning base store confidences (some p)
          complexity).converged = true ↔ base ≤ mean confidences) ∧
      (Convergence.analyzeAdaptiveLearning base store confidences (some p)
          complexity).score = mean confidences)) ∧
    (0 < ((store (Convergence.patternKey complexity p)).getD ⟨0, 0, []⟩).executions →
      ((Convergence.analyzeAdaptiveLearning base store confidences (some p)
          complexity).converged = true ↔
        min 0.9 (((store (Convergence.patternKey complexity p)).getD
          ⟨0, 0, []⟩).avgConfidence + 0.1) ≤ mean confidences) ∧
      (Convergence.analyzeAdaptiveLearning base store confidences (some p)
          complexity).score = mean confidences /
        min 0.9 (((store (Convergence.patternKey complexity p)).getD
          ⟨0, 0, []⟩).avgConfidence + 0.1)) := by
  constructor
  · intro h0
    rw [Convergence.analyzeAdaptiveLearning]
    simp only [if_neg hp]
    rw [if_neg (by omega)]
    simp [decide_eq_true_eq]
  · intro hpos
    rw [Convergence.analyzeAdaptiveLearning]
    simp only [if_neg hp]
    rw [if_pos hpos]
    simp [decide_eq_true_eq]

/-- Witness for C6: a fresh store (cold start) at base threshold 0.75 with a
current mean of 0.8 converges. -/
theorem claim_C6_witness :
    (Convergence.analyzeAdaptiveLearning 0.75 (fun _ => none) [(0.8 : ℝ)]
      (some ["brain_recall"]) "medium").converged = true := by
  have h := (claim_C6 0.75 (fun _ => none) [(0.8 : ℝ)] ["brain_recall"] "medium"
    (by simp)).1 (by rfl)
  rw [h.1]
  rw [mean]
  norm_num

/-- The retry loop always appends a record whose retry count lies between the
starting attempt (exclusive lower bound 0) and `maxRetries`. -/
theorem roleRun_aux (toolName : String) (invoke : ℕ → Engine.ToolOutcome) (maxRetries : ℕ) :
    ∀ fuel attempt, maxRetries - attempt ≤ fuel → attempt < maxRetries →
      ∃ r, Engine.roleRun toolName invoke maxRetries attempt = some r ∧
        attempt ≤ r.retryCount ∧ r.retryCount < maxRetries := by
  intro fuel
  induction fuel with
  | zero =>
    intro attempt h0 hlt
    omega
  | succ k ih =>
    intro attempt hfe hlt
    rw [Engine.roleRun, dif_pos hlt]
    cases hiv : invoke attempt with
    | ok res =>
      simp only []
      by_cases hs : ({ res with retryCount := attempt } : Engine.MCPExecutionResult).success = true
      · rw [if_pos hs]
        exact ⟨_, rfl, le_refl _, hlt⟩
      · rw [if_neg hs]
        by_cases hl : attempt = maxRetries - 1
        · rw [if_pos hl]
          exact ⟨_, rfl, le_refl _, hlt⟩
        · rw [if_neg hl]
          obtain ⟨r, hr, hle, hlt2⟩ := ih (attempt + 1) (by omega) (by omega)
          exact ⟨r, hr, by omega, hlt2⟩
    | exn msg =>
      simp only []
      by_cases hl : attempt = maxRetries - 1
      · rw [if_pos hl]
        exact ⟨_, rfl, le_refl _, hlt⟩
      · rw [if_neg hl]
        obtain ⟨r, hr, hle, hlt2⟩ := ih (attempt + 1) (by omega) (by omega)
        exact ⟨r, hr, by omega, hlt2⟩

/-- Against a tool whose returned results always fail with confidence 0 (as
the source's `MCPToolInterface` failure paths produce) or whose calls raise,
the retry loop's appended record is a failure with confidence 0.0 and retry
count `maxRetries − 1`. -/
theorem roleRun_fail (toolName : String) (invoke : ℕ → Engine.ToolOutcome) (maxRetries : ℕ)
    (hfail : ∀ attempt res, invoke attempt = .ok res →
      res.success = false ∧ res.confidence = 0) :
    ∀ fuel attempt r, maxRetries - attempt ≤ fuel →
      Engine.roleRun toolName invoke maxRetries attempt = some r →
      r.success = false ∧ r.confidence = 0 ∧ r.retryCount = maxRetries - 1 := by
  intro fuel
  induction fuel with
  | zero =>
    intro attempt r h0 hr
    rw [Engine.roleRun, dif_neg (by omega)] at hr
    cases hr
  | succ k ih =>
    intro attempt r hfe hr
    by_cases hlt : attempt < maxRetries
    · rw [Engine.roleRun, dif_pos hlt] at hr
      cases hiv : invoke attempt with
      | ok res =>
        rw [hiv] at hr
        simp only [] at hr
        have hres := hfail attempt res hiv
        have hs : ¬ ({ res with retryCount := attempt } :
            Engine.MCPExecutionResult).success = true := by
          simp [hres.1]
        rw [if_neg hs] at hr
        by_cases hl : attempt = maxRetries - 1
        · rw [if_pos hl] at hr
          cases hr
          exact ⟨hres.1, hres.2, hl⟩
        · rw [if_neg hl] at hr
          exact ih (attempt + 1) r (by omega) hr
      | exn msg =>
        rw [hiv] at hr
        simp only [] at hr
        by_cases hl : attempt = maxRetries - 1
        · rw [if_pos hl] at hr
          cases hr
          exact ⟨rfl, rfl, hl⟩
        · rw [if_neg hl] at hr
          exact ih (attempt + 1) r (by omega) hr
    · rw [Engine.roleRun, dif_neg hlt] at hr
      cases hr

/-- The orchestrator produces one record per pattern role (in pattern order)
and each record's retry count is below `maxRetries`. -/
theorem executePattern_spec (invoke : Engine.ToolInvoker) (maxRetries : ℕ)
    (hmr : 1 ≤ maxRetries) :
    ∀ (pattern : List String) (context : String),
      (Engine.executePatternWithRetries invoke maxRetries pattern context).length =
        pattern.length ∧
      ∀ r ∈ Engine.executePatternWithRetries invoke maxRetries pattern context,
        r.retryCount < maxRetries := by
  intro pattern
  induction pattern with
  | nil =>
    intro context
    simp [Engine.executePatternWithRetries]
  | cons tool rest ih =>
    intro context
    rw [Engine.executePatternWithRetries]
    obtain ⟨r, hr, _, hlt⟩ := roleRun_aux tool (invoke tool context) maxRetries
      maxRetries 0 (by omega) (by omega)
    rw [hr]
    refine ⟨by simp [(ih _).1], ?_⟩
    intro s hs
    rcases List.mem_cons.1 hs with rfl | hs
    · exact hlt
    · exact (ih _).2 s hs

/-- C3: for every injected tool invoker, pattern, query and `maxRetries ≥ 1`,
the orchestrator returns exactly one record per tool role; every record's
retry count satisfies `0 ≤ retry_count < maxRetries`; and when the invoker
always fails (every returned result unsuccessful with confidence 0, or every
call raising), every record is a failure with confidence 0.0 and retry count
`maxRetries − 1`. -/
theorem claim_C3 (invoke : Engine.ToolInvoker) (pattern : List String) (query : String)
    (maxRetries : ℕ) (hmr : 1 ≤ maxRetries) :
    (Engine.executePatternWithRetries invoke maxRetries pattern query).length =
      pattern.length ∧
    (∀ r ∈ Engine.executePatternWithRetries invoke maxRetries pattern query,
      r.retryCount < maxRetries) ∧
    ((∀ tool ctx attempt res, invoke tool ctx attempt = .ok res →
        res.success = false ∧ res.confidence = 0) →
      ∀ r ∈ Engine.executePatternWithRetries invoke maxRetries pattern query,
        r.success = false ∧ r.confidence = 0 ∧ r.retryCount = maxRetries - 1) := by
  refine ⟨(executePattern_spec invoke maxRetries hmr pattern query).1,
    (executePattern_spec invoke maxRetries hmr pattern query).2, ?_⟩
  intro hfail
  clear hmr
  induction pattern generalizing query with
  | nil =>
    intro r hr
    simp [Engine.executePatternWithRetries] at hr
  | cons tool rest ih =>
    intro r hr
    rw [Engine.executePatternWithRetries] at hr
    cases hrole : Engine.roleRun tool (invoke tool query) maxRetries 0 with
    | none =>
      rw [hrole] at hr
      exact ih _ r hr
    | some r0 =>
      rw [hrole] at hr
      rcases List.mem_cons.1 hr with rfl | hr
      · exact roleRun_fail tool (invoke tool query) maxRetries
          (fun attempt res h => hfail tool query attempt res h) maxRetries 0 r
          (by omega) hrole
      · exact ih _ r hr

/-- Witness for C3 (also the claim's concrete scenario): an always-raising
invoker on a 3-step pattern with `max_retries = 2` yields exactly 3 records,
all failed with retry count 1. -/
theorem claim_C3_witness :
    (Engine.executePatternWithRetries (fun _ _ _ => .exn "tool failed") 2
      ["brain_recall", "web_search", "brain_remember"] "q").length = 3 ∧
    ∀ r ∈ Engine.executePatternWithRetries (fun _ _ _ => .exn "tool failed") 2
        ["brain_recall", "web_search", "brain_remember"] "q",
      r.success = false ∧ r.retryCount = 1 := by
  have h := claim_C3 (fun _ _ _ => .exn "tool failed")
    ["brain_recall", "web_search", "brain_remember"] "q" 2 (by norm_num)
  refine ⟨h.1, fun r hr => ?_⟩
  have hall := h.2.2 (by intro tool ctx attempt res hres; cases hres) r hr
  exact ⟨hall.1, hall.2.2⟩

/-- The simple convergence analyzer never produces the error-dictionary shape:
that shape comes only from `execute`'s exception handler. -/
theorem analyze_ne_error (threshold : ℝ) (rs : List Engine.MCPExecutionResult)
    (msg : String) : Engine.analyze threshold rs ≠ Engine.ConvData.errorData msg := by
  rw [Engine.analyze]
  split
  · intro h
    cases h
  · intro h
    cases h

/-- C4: per-step tool failures never abort the pattern (the run still yields
one record per role of the selected pattern, for any invoker); the top-level
`execute` always returns a result object whose convergence data is never the
error shape on a normal run; and a structural fault is returned as the fixed
error-shaped result, distinguishable (by construction of `ConvData`) from any
completed low-confidence run. -/
theorem claim_C4 (invoke : Engine.ToolInvoker) (maxRetries : ℕ) (threshold : ℝ)
    (query : String) (hmr : 1 ≤ maxRetries) :
    ((Engine.executeTop invoke maxRetries threshold none query).mcpResults.length =
      (Engine.enginePattern (Engine.assess query)).length ∧
     ∀ msg, (Engine.executeTop invoke maxRetries threshold none query).convergenceData ≠
        Engine.ConvData.errorData msg) ∧
    (∀ fmsg, (Engine.executeTop invoke maxRetries threshold (some fmsg) query).convergenceData =
      Engine.ConvData.errorData ("HRM execution failed: " ++ fmsg)) := by
  refine ⟨⟨?_, ?_⟩, fun fmsg => rfl⟩
  · exact (executePattern_spec invoke maxRetries hmr _ query).1
  · intro msg
    exact analyze_ne_error threshold _ msg

/-- Witness for C4: a 1-retry engine against an always-raising invoker. -/
theorem claim_C4_witness :
    ((Engine.executeTop (fun _ _ _ => .exn "down") 1 0.75 none
        "what is x").mcpResults.length =
      (Engine.enginePattern (Engine.assess "what is x")).length) ∧
    (Engine.executeTop (fun _ _ _ => .exn "down") 1 0.75 (some "bad config")
        "what is x").convergenceData =
      Engine.ConvData.errorData "HRM execution failed: bad config" := by
  have h := claim_C4 (fun _ _ _ => .exn "down") 1 0.75 "what is x" (by norm_num)
  exact ⟨h.1.1, h.2 "bad config"⟩

open scoped Classical in
/-- For a positive mean, the source's stability computation (standard
deviation taken as 0 for a single sample) coincides with the specification's
stability formula. -/
theorem codeStab_eq_specStability (confidences : List ℝ) (hne : confidences ≠ [])
    (hpos : 0 < mean confidences) :
    (if 0 < mean confidences then
      1 - min ((if 1 < confidences.length then stdev confidences else 0) /
        mean confidences) 1
    else 0) = Convergence.specStability confidences := by
  rw [if_pos hpos, Convergence.specStability]
  by_cases h1 : confidences.length = 1
  · rw [if_pos h1, if_neg (by omega)]
    rw [zero_div]
    norm_num
  · have hlen : 1 < confidences.length := by
      cases confidences with
      | nil => exact absurd rfl hne
      | cons a t =>
        cases t with
        | nil => simp at h1
        | cons b t2 => simp only [List.length_cons]; omega
    rw [if_neg h1, if_pos hlen]

open scoped Classical in
/-- C2: for every non-empty list of (nonnegative) confidences and every
success rate, the confidence-threshold strategy converges exactly when the
mean confidence reaches the tier threshold (0.65/0.75/0.80/0.85 for the four
tiers, the positive base threshold otherwise), the success rate is ≥ 0.8 and
the specification's stability (`1 − min(stdev/mean, 1)`, 1 for a single
sample) is ≥ 0.7; its score is mean × success rate × stability; and on
`[0.92, 0.88, 0.90]` at Medium tier with success rate 1 it converges. -/
theorem claim_C2 (base : ℝ) (hbase : 0 < base) (confidences : List ℝ)
    (hne : confidences ≠ []) (hnn : ∀ c ∈ confidences, 0 ≤ c)
    (successRate : ℝ) (complexity : String) :
    ((Convergence.analyzeConfidenceThreshold base confidences successRate
        complexity).converged = true ↔
      (Convergence.complexityThreshold base complexity ≤ mean confidences ∧
        0.8 ≤ successRate ∧ 0.7 ≤ Convergence.specStability confidences)) ∧
    (Convergence.analyzeConfidenceThreshold base confidences successRate
        complexity).score =
      mean confidences * successRate * Convergence.specStability confidences ∧
    Convergence.complexityThreshold base "simple" = 0.65 ∧
    Convergence.complexityThreshold base "medium" = 0.75 ∧
    Convergence.complexityThreshold base "complex" = 0.80 ∧
    Convergence.complexityThreshold base "expert" = 0.85 ∧
    (Convergence.analyzeConfidenceThreshold base [0.92, 0.88, 0.90] 1
        "medium").converged = true := by
  have h0 : 0 ≤ mean confidences := mean_nonneg hnn
  have hthr : 0 < Convergence.complexityThreshold base complexity := by
    rw [Convergence.complexityThreshold]
    split_ifs <;> norm_num [hbase]
  have hconv : (Convergence.analyzeConfidenceThreshold base confidences successRate
      complexity).converged =
      decide (Convergence.complexityThreshold base complexity ≤ mean confidences ∧
        0.8 ≤ successRate ∧ 0.7 ≤
          (if 0 < mean confidences then
            1 - min ((if 1 < confidences.length then stdev confidences else 0) /
              mean confidences) 1
          else 0)) := rfl
  have hscore : (Convergence.analyzeConfidenceThreshold base confidences successRate
      complexity).score =
      mean confidences * successRate *
        (if 0 < mean confidences then
          1 - min ((if 1 < confidences.length then stdev confidences else 0) /
            mean confidences) 1
        else 0) := rfl
  have hmed : mean [(0.92 : ℝ), 0.88, 0.90] = 0.9 := by
    rw [mean]
    norm_num
  have hvar : sampleVariance [(0.92 : ℝ), 0.88, 0.90] = 0.0004 := by
    rw [sampleVariance, hmed]
    norm_num
  have hstd : stdev [(0.92 : ℝ), 0.88, 0.90] = 0.02 := by
    rw [stdev, hvar, show (0.0004 : ℝ) = 0.02 ^ 2 from by norm_num,
      Real.sqrt_sq (by norm_num)]
  refine ⟨?_, ?_, by simp [Convergence.complexityThreshold],
    by simp [Convergence.complexityThreshold], by simp [Convergence.complexityThreshold],
    by simp [Convergence.complexityThreshold], ?_⟩
  · rw [hconv, decide_eq_true_eq]
    by_cases hpos : 0 < mean confidences
    · rw [codeStab_eq_specStability confidences hne hpos]
    · have hzero : mean confidences = 0 := le_antisymm (not_lt.1 hpos) h0
      constructor
      · intro h
        exact absurd (hzero ▸ h.1) (not_le.2 hthr)
      · intro h
        exact absurd (hzero ▸ h.1) (not_le.2 hthr)
  · by_cases hpos : 0 < mean confidences
    · rw [hscore, codeStab_eq_specStability confidences hne hpos]
    · have hzero : mean confidences = 0 := le_antisymm (not_lt.1 hpos) h0
      rw [hscore, hzero]
      ring
  · have hconv2 : (Convergence.analyzeConfidenceThreshold base
        [(0.92 : ℝ), 0.88, 0.90] 1 "medium").converged =
        decide (Convergence.complexityThreshold base "medium" ≤
            mean [(0.92 : ℝ), 0.88, 0.90] ∧
          (0.8 : ℝ) ≤ 1 ∧ (0.7 : ℝ) ≤
            (if 0 < mean [(0.92 : ℝ), 0.88, 0.90] then
              1 - min ((if 1 < ([(0.92 : ℝ), 0.88, 0.90] : List ℝ).length then
                  stdev [(0.92 : ℝ), 0.88, 0.90] else 0) /
                mean [(0.92 : ℝ), 0.88, 0.90]) 1
            else 0)) := rfl
    rw [hconv2, decide_eq_true_eq]
    rw [show Convergence.complexityThreshold base "medium" = 0.75 from by
      simp [Convergence.complexityThreshold]]
    rw [hmed, if_pos (by norm_num : (0 : ℝ) < 0.9),
      if_pos (by norm_num : 1 < ([(0.92 : ℝ), 0.88, 0.90] : List ℝ).length), hstd]
    refine ⟨by norm_num, by norm_num, ?_⟩
    rw [min_eq_left (by norm_num)]
    norm_num

/-- Witness for C2: the claim's own concrete scenario, extracted by applying
the theorem at base threshold 0.75. -/
theorem claim_C2_witness :
    (Convergence.analyzeConfidenceThreshold 0.75 [0.92, 0.88, 0.90] 1
      "medium").converged = true :=
  (claim_C2 0.75 (by norm_num) [0.92, 0.88, 0.90] (by simp)
    (by
      intro c hc
      rcases List.mem_cons.1 hc with rfl | hc
      · norm_num
      rcases List.mem_cons.1 hc with rfl | hc
      · norm_num
      rcases List.mem_cons.1 hc with rfl | hc
      · norm_num
      · simp at hc)
    1 "medium").2.2.2.2.2.2

open scoped Classical in
/-- Python's keep-first-on-ties maximum scan stays inside the scanned list. -/
theorem pickPrimary_mem (t : List Convergence.StrategyResult) :
    ∀ h, Convergence.pickPrimary h t ∈ h :: t := by
  induction t with
  | nil =>
    intro h
    simp [Convergence.pickPrimary]
  | cons x xs ih =>
    intro h
    have hstep : Convergence.pickPrimary h (x :: xs) =
        Convergence.pickPrimary (if h.score < x.score then x else h) xs := rfl
    rw [hstep]
    rcases List.mem_cons.1 (ih (if h.score < x.score then x else h)) with hmem | hmem
    · rw [hmem]
      split_ifs
      · exact List.mem_cons_of_mem _ (List.mem_cons_self _ _)
      · exact List.mem_cons_self _ _
    · exact List.mem_cons_of_mem _ (List.mem_cons_of_mem _ hmem)

open scoped Classical in
/-- The maximum scan dominates every scanned element's score. -/
theorem pickPrimary_le (t : List Convergence.StrategyResult) :
    ∀ h s, s ∈ h :: t → s.score ≤ (Convergence.pickPrimary h t).score := by
  induction t with
  | nil =>
    intro h s hs
    rcases List.mem_cons.1 hs with rfl | hs
    · exact le_refl _
    · simp at hs
  | cons x xs ih =>
    intro h s hs
    have hstep : Convergence.pickPrimary h (x :: xs) =
        Convergence.pickPrimary (if h.score < x.score then x else h) xs := rfl
    rw [hstep]
    have hhead : (if h.score < x.score then x else h).score ≤
        (Convergence.pickPrimary (if h.score < x.score then x else h) xs).score :=
      ih _ _ (List.mem_cons_self _ _)
    have hh : h.score ≤ (if h.score < x.score then x else h).score := by
      split_ifs with hx
      · exact le_of_lt hx
      · exact le_refl _
    have hxle : x.score ≤ (if h.score < x.score then x else h).score := by
      split_ifs with hx
      · exact le_refl _
      · exact not_lt.1 hx
    rcases List.mem_cons.1 hs with rfl | hs
    · exact le_trans hh hhead
    rcases List.mem_cons.1 hs with rfl | hs
    · exact le_trans hxle hhead
    · exact ih _ _ (List.mem_cons_of_mem _ hs)

open scoped Classical in
/-- When one element's score strictly dominates every other scanned element,
the maximum scan returns it. -/
theorem pickPrimary_unique (t : List Convergence.StrategyResult)
    (h s : Convergence.StrategyResult) (hsmem : s ∈ h :: t)
    (hdom : ∀ u ∈ h :: t, u ≠ s → u.score < s.score) :
    Convergence.pickPrimary h t = s := by
  by_contra hne
  exact absurd (pickPrimary_le t h s hsmem)
    (not_le.2 (hdom _ (pickPrimary_mem t h) hne))

open scoped Classical in
/-- The weighted combined score over the participating strategies equals the
elementwise sum that counts weight × score for each strategy with a positive
score and 0 otherwise. -/
theorem filter_score_sum (l : List Convergence.StrategyResult) :
    ((l.filter fun s => decide (0 < s.score)).map
      fun s => s.score * Convergence.strategyWeight s.strategy).sum =
    (l.map fun s => if 0 < s.score then
      Convergence.strategyWeight s.strategy * s.score else 0).sum := by
  induction l with
  | nil => simp
  | cons x xs ih =>
    rw [List.filter_cons]
    by_cases hx : 0 < x.score
    · rw [if_pos (by simpa using hx)]
      simp only [List.map_cons, List.sum_cons, ih, if_pos hx]
      rw [mul_comm]
    · rw [if_neg (by simpa using hx)]
      simp only [List.map_cons, List.sum_cons, ih, if_neg hx, zero_add]

open scoped Classical in
/-- The convergence vote over the participating strategies equals the
elementwise sum that counts the weight of each strategy with a positive score
and a true converged flag and 0 otherwise. -/
theorem filter_vote_sum (l : List Convergence.StrategyResult) :
    (((l.filter fun s => decide (0 < s.score)).filter fun s => s.converged).map
      fun s => Convergence.strategyWeight s.strategy).sum =
    (l.map fun s => if 0 < s.score ∧ s.converged = true then
      Convergence.strategyWeight s.strategy else 0).sum := by
  induction l with
  | nil => simp
  | cons x xs ih =>
    rw [List.filter_cons]
    by_cases hx : 0 < x.score
    · rw [if_pos (by simpa using hx), List.filter_cons]
      by_cases hcv : x.converged = true
      · rw [if_pos hcv]
        simp only [List.map_cons, List.sum_cons, ih, if_pos (And.intro hx hcv)]
      · rw [if_neg hcv]
        rw [ih, List.map_cons, List.sum_cons, if_neg (fun hand => hcv hand.2), zero_add]
    · rw [if_neg (by simpa using hx)]
      rw [ih, List.map_cons, List.sum_cons, if_neg (fun hand => hx hand.1), zero_add]

open scoped Classical in
/-- Membership in the participating-strategy list is exactly score
positivity. -/
theorem mem_filter_score (l : List Convergence.StrategyResult)
    (s : Convergence.StrategyResult) :
    s ∈ l.filter (fun s => decide (0 < s.score)) ↔ s ∈ l ∧ 0 < s.score := by
  rw [List.mem_filter]
  simp

open scoped Classical in
/-- C1: in `_combine_convergence_strategies`, exactly the strategies with
positive score participate; each participating strategy contributes its fixed
weight (0.40 / 0.20 / 0.25 / 0.15) to the convergence vote exactly when its
converged flag is true, and weight × score to the combined score; the verdict
converges exactly when the accumulated vote weight is ≥ 0.5; the primary
strategy is the participating strategy with the single highest score; and
with no positive score the result is the fixed non-converged fallback with no
vote computed. -/
theorem claim_C1 (c d n a : Convergence.StrategyResult)
    (hc : c.strategy = .confidenceThreshold)
    (hd : d.strategy = .diminishingReturns)
    (hn : n.strategy = .consensusValidation)
    (ha : a.strategy = .adaptiveLearning) :
    (¬ (0 < c.score ∨ 0 < d.score ∨ 0 < n.score ∨ 0 < a.score) →
      Convergence.combineConvergenceStrategies c d n a =
        .fallback false 0 "No valid convergence strategies" .confidenceThreshold) ∧
    ((0 < c.score ∨ 0 < d.score ∨ 0 < n.score ∨ 0 < a.score) →
      (Convergence.votesOf (Convergence.combineConvergenceStrategies c d n a) =
        some ((if 0 < c.score ∧ c.converged = true then 0.4 else 0) +
          ((if 0 < d.score ∧ d.converged = true then 0.2 else 0) +
          ((if 0 < n.score ∧ n.converged = true then 0.25 else 0) +
          ((if 0 < a.score ∧ a.converged = true then 0.15 else 0) + 0))))) ∧
      (Convergence.combinedScoreOf (Convergence.combineConvergenceStrategies c d n a) =
        some ((if 0 < c.score then 0.4 * c.score else 0) +
          ((if 0 < d.score then 0.2 * d.score else 0) +
          ((if 0 < n.score then 0.25 * n.score else 0) +
          ((if 0 < a.score then 0.15 * a.score else 0) + 0))))) ∧
      (Convergence.convergedOf (Convergence.combineConvergenceStrategies c d n a) = true ↔
        (0.5 : ℝ) ≤ (if 0 < c.score ∧ c.converged = true then 0.4 else 0) +
          ((if 0 < d.score ∧ d.converged = true then 0.2 else 0) +
          ((if 0 < n.score ∧ n.converged = true then 0.25 else 0) +
          ((if 0 < a.score ∧ a.converged = true then 0.15 else 0) + 0)))) ∧
      (∀ ds, Convergence.detailsOf (Convergence.combineConvergenceStrategies c d n a) =
          some ds → ∀ s ∈ [c, d, n, a], (s ∈ ds ↔ 0 < s.score)) ∧
      (∀ s ∈ [c, d, n, a], 0 < s.score →
        (∀ u ∈ [c, d, n, a], 0 < u.score → u ≠ s → u.score < s.score) →
        Convergence.primaryOf (Convergence.combineConvergenceStrategies c d n a) =
          some s.strategy)) := by
  constructor
  · intro hnone
    push_neg at hnone
    have hfil : ([c, d, n, a].filter fun s => decide (0 < s.score)) = [] := by
      rw [List.filter_eq_nil_iff]
      intro s hs
      simp only [decide_eq_true_eq]
      rcases List.mem_cons.1 hs with rfl | hs
      · exact not_lt.2 hnone.1
      rcases List.mem_cons.1 hs with rfl | hs
      · exact not_lt.2 hnone.2.1
      rcases List.mem_cons.1 hs with rfl | hs
      · exact not_lt.2 hnone.2.2.1
      rcases List.mem_cons.1 hs with rfl | hs
      · exact not_lt.2 hnone.2.2.2
      · simp at hs
    simp only [Convergence.combineConvergenceStrategies, hfil]
  · intro hsome
    have hfil_ne : ([c, d, n, a].filter fun s => decide (0 < s.score)) ≠ [] := by
      intro hnil
      rcases hsome with hx | hx | hx | hx
      · have : c ∈ ([c, d, n, a].filter fun s => decide (0 < s.score)) :=
          (mem_filter_score _ _).2 ⟨by simp, hx⟩
        rw [hnil] at this
        simp at this
      · have : d ∈ ([c, d, n, a].filter fun s => decide (0 < s.score)) :=
          (mem_filter_score _ _).2 ⟨by simp, hx⟩
        rw [hnil] at this
        simp at this
      · have : n ∈ ([c, d, n, a].filter fun s => decide (0 < s.score)) :=
          (mem_filter_score _ _).2 ⟨by simp, hx⟩
        rw [hnil] at this
        simp at this
      · have : a ∈ ([c, d, n, a].filter fun s => decide (0 < s.score)) :=
          (mem_filter_score _ _).2 ⟨by simp, hx⟩
        rw [hnil] at this
        simp at this
    obtain ⟨v, vs, hvvs⟩ := List.exists_cons_of_ne_nil hfil_ne
    have hcombine : Convergence.combineConvergenceStrategies c d n a =
        Convergence.ConvergenceOutcome.verdict
          (decide (0.5 ≤ (((v :: vs).filter fun s => s.converged).map
            fun s => Convergence.strategyWeight s.strategy).sum))
          (((v :: vs).map fun s => s.score * Convergence.strategyWeight s.strategy).sum)
          ((((v :: vs).filter fun s => s.converged).map
            fun s => Convergence.strategyWeight s.strategy).sum)
          (Convergence.pickPrimary v vs).strategy (v :: vs) := by
      simp only [Convergence.combineConvergenceStrategies, hvvs]
    have hvotes : (((v :: vs).filter fun s => s.converged).map
        fun s => Convergence.strategyWeight s.strategy).sum =
        (if 0 < c.score ∧ c.converged = true then 0.4 else 0) +
          ((if 0 < d.score ∧ d.converged = true then 0.2 else 0) +
          ((if 0 < n.score ∧ n.converged = true then 0.25 else 0) +
          ((if 0 < a.score ∧ a.converged = true then 0.15 else 0) + 0))) := by
      rw [← hvvs, filter_vote_sum]
      simp only [List.map_cons, List.map_nil, List.sum_cons, List.sum_nil,
        hc, hd, hn, ha, Convergence.strategyWeight, add_zero]
    have hscores : (((v :: vs)).map
        fun s => s.score * Convergence.strategyWeight s.strategy).sum =
        (if 0 < c.score then 0.4 * c.score else 0) +
          ((if 0 < d.score then 0.2 * d.score else 0) +
          ((if 0 < n.score then 0.25 * n.score else 0) +
          ((if 0 < a.score then 0.15 * a.score else 0) + 0))) := by
      rw [← hvvs, filter_score_sum]
      simp only [List.map_cons, List.map_nil, List.sum_cons, List.sum_nil,
        hc, hd, hn, ha, Convergence.strategyWeight, add_zero]
    refine ⟨?_, ?_, ?_, ?_, ?_⟩
    · rw [hcombine, Convergence.votesOf, hvotes]
    · rw [hcombine, Convergence.combinedScoreOf, hscores]
    · rw [hcombine, Convergence.convergedOf, decide_eq_true_eq, hvotes]
    · intro ds hds s hs
      rw [hcombine, Convergence.detailsOf] at hds
      have hdseq : ds = v :: vs := by
        injection hds with h
        exact h.symm
      rw [hdseq, ← hvvs, mem_filter_score]
      exact ⟨fun hmem => hmem.2, fun hpos => ⟨hs, hpos⟩⟩
    · intro s hs hspos hdom
      rw [hcombine, Convergence.primaryOf]
      have hsmem : s ∈ v :: vs := by
        rw [← hvvs]
        exact (mem_filter_score _ _).2 ⟨hs, hspos⟩
      have hdom2 : ∀ u ∈ v :: vs, u ≠ s → u.score < s.score := by
        intro u hu hune
        have hu2 : u ∈ [c, d, n, a] ∧ 0 < u.score := by
          rw [← hvvs] at hu
          exact (mem_filter_score _ _).1 hu
        exact hdom u hu2.1 hu2.2 hune
      rw [pickPrimary_unique vs v s hsmem hdom2]

/-- Witness for C1: four concrete strategy results (two participating, one
abstaining with score 0, one non-converged), checking the vote sum and the
primary selection. -/
theorem claim_C1_witness :
    Convergence.votesOf (Convergence.combineConvergenceStrategies
      ⟨true, .confidenceThreshold, 0.9⟩ ⟨false, .diminishingReturns, 0⟩
      ⟨true, .consensusValidation, 0.5⟩ ⟨false, .adaptiveLearning, 0.3⟩) =
      some 0.65 ∧
    Convergence.primaryOf (Convergence.combineConvergenceStrategies
      ⟨true, .confidenceThreshold, 0.9⟩ ⟨false, .diminishingReturns, 0⟩
      ⟨true, .consensusValidation, 0.5⟩ ⟨false, .adaptiveLearning, 0.3⟩) =
      some .confidenceThreshold := by
  have h := claim_C1 ⟨true, .confidenceThreshold, 0.9⟩ ⟨false, .diminishingReturns, 0⟩
    ⟨true, .consensusValidation, 0.5⟩ ⟨false, .adaptiveLearning, 0.3⟩ rfl rfl rfl rfl
  have hx := h.2 (Or.inl (by norm_num))
  constructor
  · rw [hx.1]
    norm_num
  · have hp := hx.2.2.2.2 ⟨true, .confidenceThreshold, 0.9⟩ (by simp) (by norm_num) ?_
    · exact hp
    · intro u hu hupos hune
      rcases List.mem_cons.1 hu with rfl | hu
      · exact absurd rfl hune
      rcases List.mem_cons.1 hu with rfl | hu
      · norm_num at hupos
      rcases List.mem_cons.1 hu with rfl | hu
      · norm_num
      rcases List.mem_cons.1 hu with rfl | hu
      · norm_num
      · simp at hu

/-- Every extracted confidence comes from some record's confidence field. -/
theorem mem_confidences {records : List Convergence.MCPRecord} {x : ℝ}
    (hx : x ∈ records.filterMap fun r => if r.success then r.confidence else none) :
    ∃ r ∈ records, r.confidence = some x := by
  obtain ⟨r, hr, heq⟩ := List.mem_filterMap.1 hx
  refine ⟨r, hr, ?_⟩
  by_cases hs : r.success
  · rw [if_pos hs] at heq
    exact heq
  · rw [if_neg hs] at heq
    cases heq

/-- Every information gain is the clamp of a difference of two samples. -/
theorem mem_gains {confidences : List ℝ} {g : ℝ}
    (hg : g ∈ Convergence.gains confidences) :
    ∃ x ∈ confidences, ∃ y ∈ confidences, g = max 0 (y - x) := by
  obtain ⟨p, hp, heq⟩ := List.mem_map.1 hg
  obtain ⟨h1, h2⟩ := List.of_mem_zip hp
  exact ⟨p.1, h1, p.2, List.mem_of_mem_tail h2, heq.symm⟩

/-- Gains computed from confidences in `[0,1]` stay in `[0,1]`. -/
theorem gains_bounds {confidences : List ℝ}
    (hc : ∀ x ∈ confidences, 0 ≤ x ∧ x ≤ 1) :
    ∀ g ∈ Convergence.gains confidences, 0 ≤ g ∧ g ≤ 1 := by
  intro g hg
  obtain ⟨x, hx, y, hy, rfl⟩ := mem_gains hg
  refine ⟨le_max_left _ _, max_le (by norm_num) ?_⟩
  have h1 := hc x hx
  have h2 := hc y hy
  linarith [h1.1, h2.2]

open scoped Classical in
/-- The confidence-threshold score is a product of three factors in `[0,1]`,
hence itself in `[0,1]`, whenever the confidences and the success rate are. -/
theorem confThreshold_score_bounds (base : ℝ) (confidences : List ℝ)
    (successRate : ℝ) (complexity : String)
    (hc : ∀ x ∈ confidences, 0 ≤ x ∧ x ≤ 1)
    (hsr : 0 ≤ successRate ∧ successRate ≤ 1) :
    0 ≤ (Convergence.analyzeConfidenceThreshold base confidences successRate
      complexity).score ∧
    (Convergence.analyzeConfidenceThreshold base confidences successRate
      complexity).score ≤ 1 := by
  have hscore : (Convergence.analyzeConfidenceThreshold base confidences successRate
      complexity).score =
      mean confidences * successRate *
        (if 0 < mean confidences then
          1 - min ((if 1 < confidences.length then stdev confidences else 0) /
            mean confidences) 1
        else 0) := rfl
  have hm : 0 ≤ mean confidences ∧ mean confidences ≤ 1 :=
    ⟨mean_nonneg fun x hx => (hc x hx).1, mean_le_one fun x hx => (hc x hx).2⟩
  have hstab : 0 ≤ (if 0 < mean confidences then
      1 - min ((if 1 < confidences.length then stdev confidences else 0) /
        mean confidences) 1 else 0) ∧
      (if 0 < mean confidences then
      1 - min ((if 1 < confidences.length then stdev confidences else 0) /
        mean confidences) 1 else 0) ≤ 1 := by
    by_cases h : 0 < mean confidences
    · simp only [if_pos h]
      have hstd : 0 ≤ (if 1 < confidences.length then stdev confidences else 0) := by
        split_ifs
        · exact stdev_nonneg _
        · exact le_refl 0
      have hmin0 : 0 ≤ min ((if 1 < confidences.length then stdev confidences else 0) /
          mean confidences) 1 :=
        le_min (div_nonneg hstd (le_of_lt h)) zero_le_one
      have hmin1 : min ((if 1 < confidences.length then stdev confidences else 0) /
          mean confidences) 1 ≤ 1 := min_le_right _ _
      constructor <;> linarith
    · simp only [if_neg h]
      norm_num
  rw [hscore]
  constructor
  · exact mul_nonneg (mul_nonneg hm.1 hsr.1) hstab.1
  · exact mul_le_one₀ (mul_le_one₀ hm.2 hsr.1 hsr.2) hstab.1 hstab.2

open scoped Classical in
/-- The diminishing-returns score lies in `[0,1]` whenever the confidences
do. -/
theorem dim_score_bounds (confidences : List ℝ)
    (hc : ∀ x ∈ confidences, 0 ≤ x ∧ x ≤ 1) :
    0 ≤ (Convergence.analyzeDiminishingReturns confidences).score ∧
    (Convergence.analyzeDiminishingReturns confidences).score ≤ 1 := by
  have hg := gains_bounds hc
  have havg : 0 ≤ mean (Convergence.gains confidences) ∧
      mean (Convergence.gains confidences) ≤ 1 :=
    ⟨mean_nonneg fun x hx => (hg x hx).1, mean_le_one fun x hx => (hg x hx).2⟩
  constructor
  · rw [Convergence.analyzeDiminishingReturns]
    by_cases h1 : confidences.length < 3
    · rw [if_pos h1]
    · rw [if_neg h1]
      by_cases h2 : 2 ≤ (Convergence.gains confidences).length
      · simp only [if_pos h2]
        split
        · linarith [havg.2]
        · exact havg.1
      · simp only [if_neg h2]
        norm_num
  · rw [Convergence.analyzeDiminishingReturns]
    by_cases h1 : confidences.length < 3
    · rw [if_pos h1]
      norm_num
    · rw [if_neg h1]
      by_cases h2 : 2 ≤ (Convergence.gains confidences).length
      · simp only [if_pos h2]
        split
        · linarith [havg.1]
        · exact havg.2
      · simp only [if_neg h2]
        norm_num

/-- Every grouped confidence comes from some record's confidence field. -/
theorem mem_groupConfidences {p : List String} {rs : List Convergence.MCPRecord}
    {k : String} {x : ℝ} (hx : x ∈ Convergence.groupConfidences p rs k) :
    ∃ r ∈ rs, r.confidence = some x := by
  rw [Convergence.groupConfidences] at hx
  obtain ⟨r, hr, heq⟩ := List.mem_filterMap.1 hx
  obtain ⟨q, hq, rfl⟩ := List.mem_map.1 hr
  have hqmem : q ∈ rs.enum := (List.mem_filter.1 hq).1
  refine ⟨q.2, List.snd_mem_of_mem_enum hqmem, ?_⟩
  by_cases hs : q.2.success
  · rw [if_pos hs] at heq
    exact heq
  · rw [if_neg hs] at heq
    cases heq

open scoped Classical in
/-- Every per-tool consensus score lies in `[0,1]` when the record
confidences do. -/
theorem consensusScores_bounds {p : List String} {rs : List Convergence.MCPRecord}
    (hconf : ∀ r ∈ rs, ∀ x, r.confidence = some x → 0 ≤ x ∧ x ≤ 1) :
    ∀ s ∈ Convergence.consensusScores p rs, 0 ≤ s ∧ s ≤ 1 := by
  intro s hs
  rw [Convergence.consensusScores] at hs
  obtain ⟨k, hk, heq⟩ := List.mem_filterMap.1 hs
  simp only [] at heq
  by_cases hemp : (Convergence.groupConfidences p rs k).isEmpty = true
  · rw [if_pos hemp] at heq
    cases heq
  · rw [if_neg hemp] at heq
    have hmean : mean (Convergence.groupConfidences p rs k) = s := by
      injection heq
    have hcs : ∀ x ∈ Convergence.groupConfidences p rs k, 0 ≤ x ∧ x ≤ 1 := by
      intro x hx
      obtain ⟨r, hr, hconf2⟩ := mem_groupConfidences hx
      exact hconf r hr x hconf2
    rw [← hmean]
    exact ⟨mean_nonneg fun x hx => (hcs x hx).1, mean_le_one fun x hx => (hcs x hx).2⟩

open scoped Classical in
/-- The consensus score never exceeds 1 when the record confidences lie in
`[0,1]` (it can, however, be negative; see the C7 counterexample). -/
theorem consensus_score_le_one (rs : List Convergence.MCPRecord)
    (pattern : Option (List String))
    (hconf : ∀ r ∈ rs, ∀ x, r.confidence = some x → 0 ≤ x ∧ x ≤ 1) :
    (Convergence.analyzeConsensusValidation rs pattern).score ≤ 1 := by
  cases pattern with
  | none => norm_num [Convergence.analyzeConsensusValidation]
  | some p =>
    rw [Convergence.analyzeConsensusValidation]
    by_cases hguard : p = [] ∨ rs.length < 2
    · rw [if_pos hguard]
      norm_num
    · rw [if_neg hguard]
      by_cases hemp : (Convergence.consensusScores p rs).isEmpty = true
      · simp only [if_pos hemp]
        norm_num
      · simp only [if_neg hemp]
        have hsc := consensusScores_bounds (p := p) hconf
        have hov : 0 ≤ mean (Convergence.consensusScores p rs) ∧
            mean (Convergence.consensusScores p rs) ≤ 1 :=
          ⟨mean_nonneg fun x hx => (hsc x hx).1, mean_le_one fun x hx => (hsc x hx).2⟩
        have hstab : (if 1 < (Convergence.consensusScores p rs).length ∧
            0 < mean (Convergence.consensusScores p rs) then
              1 - stdev (Convergence.consensusScores p rs) /
                mean (Convergence.consensusScores p rs)
            else 1) ≤ 1 := by
          by_cases hcond : 1 < (Convergence.consensusScores p rs).length ∧
              0 < mean (Convergence.consensusScores p rs)
          · rw [if_pos hcond]
            have : 0 ≤ stdev (Convergence.consensusScores p rs) /
                mean (Convergence.consensusScores p rs) :=
              div_nonneg (stdev_nonneg _) (le_of_lt hcond.2)
            linarith
          · rw [if_neg hcond]
        calc mean (Convergence.consensusScores p rs) *
              (if 1 < (Convergence.consensusScores p rs).length ∧
                0 < mean (Convergence.consensusScores p rs) then
                  1 - stdev (Convergence.consensusScores p rs) /
                    mean (Convergence.consensusScores p rs)
                else 1)
            ≤ mean (Convergence.consensusScores p rs) :=
              mul_le_of_le_one_right hov.1 hstab
          _ ≤ 1 := hov.2

open scoped Classical in
/-- The adaptive-learning score is nonnegative whenever the confidences are
nonnegative and every stored historical average is nonnegative. -/
theorem adaptive_score_nonneg (base : ℝ) (store : String → Option Convergence.PatternPerf)
    (confidences : List ℝ) (pattern : Option (List String)) (complexity : String)
    (hcn : ∀ x ∈ confidences, 0 ≤ x)
    (hstore : ∀ k p, store k = some p → 0 ≤ p.avgConfidence) :
    0 ≤ (Convergence.analyzeAdaptiveLearning base store confidences pattern
      complexity).score := by
  have hmean : 0 ≤ mean confidences := mean_nonneg hcn
  cases pattern with
  | none => norm_num [Convergence.analyzeAdaptiveLearning]
  | some p =>
    rw [Convergence.analyzeAdaptiveLearning]
    by_cases hemp : p = []
    · rw [if_pos hemp]
    · rw [if_neg hemp]
      cases hsk : store (Convergence.patternKey complexity p) with
      | none =>
        simp only [hsk, Option.getD_none]
        rw [if_neg (by decide)]
        exact hmean
      | some perf =>
        simp only [hsk, Option.getD_some]
        by_cases hexec : 0 < perf.executions
        · rw [if_pos hexec]
          have havg : 0 ≤ perf.avgConfidence := hstore _ perf hsk
          have hthr : 0 < min (0.9 : ℝ) (perf.avgConfidence + 0.1) :=
            lt_min (by norm_num) (by linarith)
          exact div_nonneg hmean (le_of_lt hthr)
        · rw [if_neg hexec]
          exact hmean

/-- Each strategy weight is nonnegative. -/
theorem strategyWeight_nonneg (s : Convergence.Strategy) :
    0 ≤ Convergence.strategyWeight s := by
  cases s <;> norm_num [Convergence.strategyWeight]

open scoped Classical in
/-- The combined score of any strategy combination is nonnegative: only
positive-score strategies participate and each weight is positive. -/
theorem combine_combined_nonneg (c d n a : Convergence.StrategyResult) :
    0 ≤ Convergence.combinedOf (Convergence.combineConvergenceStrategies c d n a) := by
  cases hfil : ([c, d, n, a].filter fun s => decide (0 < s.score)) with
  | nil =>
    simp only [Convergence.combineConvergenceStrategies, hfil]
    norm_num [Convergence.combinedOf]
  | cons v vs =>
    simp only [Convergence.combineConvergenceStrategies, hfil]
    rw [Convergence.combinedOf]
    apply List.sum_nonneg
    intro x hx
    obtain ⟨s, hs, rfl⟩ := List.mem_map.1 hx
    have hpos : 0 < s.score := by
      rw [← hfil] at hs
      exact ((mem_filter_score _ _).1 hs).2
    exact mul_nonneg (le_of_lt hpos) (strategyWeight_nonneg _)

open scoped Classical in
/-- C7 (amended): provided every record confidence lies in `[0,1]` and every
stored historical average is nonnegative, the confidence-threshold and
diminishing-returns scores lie in `[0,1]` and the consensus score is at most
1; the adaptive-learning score is nonnegative (but can exceed 1) and the
consensus score can be negative; the verdict's combined score is nonnegative
(but can exceed 1). -/
theorem claim_C7_amended (base : ℝ) (store : String → Option Convergence.PatternPerf)
    (records : List Convergence.MCPRecord) (complexity : String)
    (pattern : Option (List String))
    (hconf : ∀ r ∈ records, ∀ x, r.confidence = some x → 0 ≤ x ∧ x ≤ 1)
    (hstore : ∀ k p, store k = some p → 0 ≤ p.avgConfidence) :
    (0 ≤ (Convergence.analyzeConfidenceThreshold base
        (records.filterMap fun r => if r.success then r.confidence else none)
        (((records.filter fun r => r.success).length : ℝ) / records.length)
        complexity).score ∧
      (Convergence.analyzeConfidenceThreshold base
        (records.filterMap fun r => if r.success then r.confidence else none)
        (((records.filter fun r => r.success).length : ℝ) / records.length)
        complexity).score ≤ 1) ∧
    (0 ≤ (Convergence.analyzeDiminishingReturns
        (records.filterMap fun r => if r.success then r.confidence else none)).score ∧
      (Convergence.analyzeDiminishingReturns
        (records.filterMap fun r => if r.success then r.confidence else none)).score ≤ 1) ∧
    (Convergence.analyzeConsensusValidation records pattern).score ≤ 1 ∧
    0 ≤ (Convergence.analyzeAdaptiveLearning base store
      (records.filterMap fun r => if r.success then r.confidence else none)
      pattern complexity).score ∧
    0 ≤ Convergence.combinedOf
      (Convergence.analyzeConvergence base store records complexity pattern) := by
  have hc01 : ∀ x ∈ (records.filterMap fun r => if r.success then r.confidence else none),
      0 ≤ x ∧ x ≤ 1 := by
    intro x hx
    obtain ⟨r, hr, hcx⟩ := mem_confidences hx
    exact hconf r hr x hcx
  have hsr : 0 ≤ (((records.filter fun r => r.success).length : ℝ) / records.length) ∧
      (((records.filter fun r => r.success).length : ℝ) / records.length) ≤ 1 := by
    constructor
    · exact div_nonneg (Nat.cast_nonneg _) (Nat.cast_nonneg _)
    · cases records with
      | nil => norm_num
      | cons r rest =>
        apply div_le_one_of_le₀
        · exact_mod_cast List.length_filter_le _ _
        · positivity
  refine ⟨confThreshold_score_bounds base _ _ complexity hc01 hsr,
    dim_score_bounds _ hc01,
    consensus_score_le_one records pattern hconf,
    adaptive_score_nonneg base store _ pattern complexity
      (fun x hx => (hc01 x hx).1) hstore, ?_⟩
  rw [Convergence.analyzeConvergence]
  by_cases hempty : records.isEmpty = true
  · rw [if_pos hempty]
    norm_num [Convergence.combinedOf]
  · rw [if_neg hempty]
    by_cases hnc : (records.filterMap fun r =>
        if r.success then r.confidence else none).isEmpty = true
    · simp only [if_pos hnc]
      norm_num [Convergence.combinedOf]
    · simp only [if_neg hnc]
      exact combine_combined_nonneg _ _ _ _

/-- Witness for C7 (amended): one successful record with confidence 1/2 and
an empty store. -/
theorem claim_C7_amended_witness :
    0 ≤ (Convergence.analyzeAdaptiveLearning 0.75 (fun _ => none)
      (([⟨some "t", true, some (1/2)⟩] : List Convergence.MCPRecord).filterMap
        fun r => if r.success then r.confidence else none)
      (some ["t"]) "medium").score ∧
    0 ≤ Convergence.combinedOf (Convergence.analyzeConvergence 0.75 (fun _ => none)
      [⟨some "t", true, some (1/2)⟩] "medium" (some ["t"])) := by
  have h := claim_C7_amended 0.75 (fun _ => none) [⟨some "t", true, some (1/2)⟩]
    "medium" (some ["t"])
    (by
      intro r hr x hx
      rw [List.mem_singleton] at hr
      subst hr
      simp only [Option.some.injEq] at hx
      subst hx
      norm_num)
    (by intro k p hk; cases hk)
  exact ⟨h.2.2.2.1, h.2.2.2.2⟩

/-- C7 counterexample: with record confidences inside `[0,1]` and a reachable
store state (historical average 0 after one low-confidence run), the
adaptive-learning score is `1/0.1 = 10 > 1`, the verdict's combined score is
`0.4·1 + 0.15·10 = 1.9 > 1`, and on two one-record tool groups with
confidences 0.9 and 0 the consensus score `0.45·(1 − √0.405/0.45)` is
negative — so neither every strategy score nor the combined score lies in
`[0,1]`. -/
theorem claim_C7_counterexample :
    1 < (Convergence.analyzeAdaptiveLearning 0.75
      (fun k => if k = Convergence.patternKey "medium" ["a"] then
        some ⟨1, 0, [0]⟩ else none)
      [1] (some ["a"]) "medium").score ∧
    1 < Convergence.combinedOf (Convergence.analyzeConvergence 0.75
      (fun k => if k = Convergence.patternKey "medium" ["a"] then
        some ⟨1, 0, [0]⟩ else none)
      [⟨some "a", true, some 1⟩] "medium" (some ["a"])) ∧
    (Convergence.analyzeConsensusValidation
      [⟨some "a", true, some 0.9⟩, ⟨some "b", true, some 0⟩]
      (some ["a", "b"])).score < 0 := by
  have hm1 : mean [(1 : ℝ)] = 1 := by
    rw [mean]
    norm_num
  have ha : Convergence.analyzeAdaptiveLearning 0.75
      (fun k => if k = Convergence.patternKey "medium" ["a"] then
        some ⟨1, 0, [0]⟩ else none)
      [1] (some ["a"]) "medium" = ⟨true, .adaptiveLearning, 10⟩ := by
    rw [Convergence.analyzeAdaptiveLearning]
    rw [if_neg (by simp : ¬(["a"] : List String) = [])]
    simp only [eq_self_iff_true, if_true, Option.getD_some]
    rw [if_pos (by norm_num : 0 < (⟨1, 0, [0]⟩ : Convergence.PatternPerf).executions)]
    simp only [Convergence.StrategyResult.mk.injEq]
    refine ⟨?_, trivial, ?_⟩
    · rw [decide_eq_true_eq, hm1]
      norm_num [min_def]
    · rw [hm1]
      norm_num [min_def]
  refine ⟨?_, ?_, ?_⟩
  · rw [ha]
    norm_num
  · have hconfs : (([⟨some "a", true, some 1⟩] : List Convergence.MCPRecord).filterMap
        fun r => if r.success then r.confidence else none) = [1] := rfl
    have hsr : ((([⟨some "a", true, some 1⟩] : List Convergence.MCPRecord).filter
        fun r => r.success).length : ℝ) /
        (([⟨some "a", true, some 1⟩] : List Convergence.MCPRecord).length) = 1 := by
      norm_num [List.filter]
    have h1 : Convergence.analyzeConvergence 0.75
        (fun k => if k = Convergence.patternKey "medium" ["a"] then
          some ⟨1, 0, [0]⟩ else none)
        [⟨some "a", true, some 1⟩] "medium" (some ["a"]) =
        Convergence.combineConvergenceStrategies
          (Convergence.analyzeConfidenceThreshold 0.75 [1] 1 "medium")
          (Convergence.analyzeDiminishingReturns [1])
          (Convergence.analyzeConsensusValidation [⟨some "a", true, some 1⟩]
            (some ["a"]))
          (Convergence.analyzeAdaptiveLearning 0.75
            (fun k => if k = Convergence.patternKey "medium" ["a"] then
              some ⟨1, 0, [0]⟩ else none)
            [1] (some ["a"]) "medium") := by
      rw [Convergence.analyzeConvergence]
      rw [if_neg (by simp)]
      simp only [hconfs, hsr]
      rw [if_neg (by simp)]
    have hc : Convergence.analyzeConfidenceThreshold 0.75 [1] 1 "medium" =
        ⟨true, .confidenceThreshold, 1⟩ := by
      rw [Convergence.analyzeConfidenceThreshold]
      simp only [Convergence.StrategyResult.mk.injEq]
      refine ⟨?_, trivial, ?_⟩
      · rw [decide_eq_true_eq, hm1,
          show Convergence.complexityThreshold 0.75 "medium" = 0.75 from by
            simp [Convergence.complexityThreshold]]
        norm_num [min_def]
      · rw [hm1]
        norm_num [min_def]
    have hd : Convergence.analyzeDiminishingReturns [1] =
        ⟨false, .diminishingReturns, 0⟩ := by
      rw [Convergence.analyzeDiminishingReturns,
        if_pos (by norm_num : ([(1 : ℝ)] : List ℝ).length < 3)]
    have hn : Convergence.analyzeConsensusValidation [⟨some "a", true, some 1⟩]
        (some ["a"]) = ⟨false, .consensusValidation, 0⟩ := by
      rw [Convergence.analyzeConsensusValidation]
      rw [if_pos (Or.inr (by norm_num))]
    rw [h1, hc, hd, hn, ha]
    have hfil : ([(⟨true, .confidenceThreshold, 1⟩ : Convergence.StrategyResult),
        ⟨false, .diminishingReturns, 0⟩, ⟨false, .consensusValidation, 0⟩,
        ⟨true, .adaptiveLearning, 10⟩].filter fun s => decide (0 < s.score)) =
        [⟨true, .confidenceThreshold, 1⟩, ⟨true, .adaptiveLearning, 10⟩] := by
      rw [List.filter_cons, if_pos (by norm_num)]
      rw [List.filter_cons, if_neg (by norm_num)]
      rw [List.filter_cons, if_neg (by norm_num)]
      rw [List.filter_cons, if_pos (by norm_num)]
      rfl
    simp only [Convergence.combineConvergenceStrategies, hfil]
    rw [Convergence.combinedOf]
    norm_num [Convergence.strategyWeight]
  · have hkeys : Convergence.orderedToolKeys ["a", "b"]
        [⟨some "a", true, some 0.9⟩, ⟨some "b", true, some 0⟩] = ["a", "b"] := rfl
    have hscores : Convergence.consensusScores ["a", "b"]
        [⟨some "a", true, some 0.9⟩, ⟨some "b", true, some 0⟩] =
        [mean [0.9], mean [0]] := rfl
    have hma : mean [(0.9 : ℝ)] = 0.9 := by
      rw [mean]
      norm_num
    have hmb : mean [(0 : ℝ)] = 0 := by
      rw [mean]
      norm_num
    have hmean2 : mean [(0.9 : ℝ), 0] = 0.45 := by
      rw [mean]
      norm_num
    have hvar : sampleVariance [(0.9 : ℝ), 0] = 0.405 := by
      rw [sampleVariance, hmean2]
      norm_num
    have hsqrt : (0.45 : ℝ) < stdev [(0.9 : ℝ), 0] := by
      rw [stdev, hvar]
      exact (Real.lt_sqrt (by norm_num)).2 (by norm_num)
    rw [Convergence.analyzeConsensusValidation]
    rw [if_neg (by simp)]
    simp only [hscores, hma, hmb]
    rw [if_neg (by simp)]
    simp only []
    rw [if_pos (And.intro (by norm_num) (by rw [hmean2]; norm_num))]
    rw [hmean2]
    have hneg : 1 - stdev [(0.9 : ℝ), 0] / 0.45 < 0 := by
      have : (1 : ℝ) < stdev [(0.9 : ℝ), 0] / 0.45 := by
        rw [lt_div_iff₀ (by norm_num)]
        linarith
      linarith
    exact mul_neg_of_pos_of_neg (by norm_num) hneg

/-- Witness for C9: an unknown tier string falls back to the Medium pattern
in both catalogs. -/
theorem claim_C9_witness :
    Core.getPattern "unheard-of" = Core.mediumPattern ∧
    Engine.enginePattern "unheard-of" = Engine.enginePattern "medium" :=
  claim_C9_amended.2.2.2.2.2.2.2.2.2.2.2.2 "unheard-of"
    (by decide) (by decide) (by decide) (by decide)

end HRM
